import Mathlib

/-
  Verification development for the CodeChrono extension core
  (activity tracker, repository correlator, sync engine).

  The definitions below are shallow embeddings of the TypeScript sources:
    - src/sync/tracker.ts   (class Tracker)
    - src/utils/gitTracker.ts (class GitTracker)
  Wall-clock times are modelled as Int (JS numbers holding integral
  milliseconds).  Fallible subprocess/network results are modelled as
  Option / Bool parameters representing the value observed after the
  source's own catch-and-swallow handling.
-/

/-- Tracker.debounceInterval = 2000 ms (tracker.ts line 20). -/
def debounceInterval : Int := 2000

/-- Tracker.maxIdleTime = 5 * 60 * 1000 ms (tracker.ts line 21). -/
def maxIdleTime : Int := 5 * 60 * 1000

/-- ActivityLog record pushed onto the pending queue (storage/database shape,
as constructed in tracker.ts lines 143-152). -/
structure ActivityLog where
  projectPath : String
  filePath : String
  language : String
  timestamp : Int
  duration : Int
  editor : String
  commitHash : Option String
  branch : Option String
deriving DecidableEq, Repr

/-- The active text editor context handleActivity reads from the host
(vscode.window.activeTextEditor): file name, language id, and the
workspace folder fallback for the document. -/
structure EditorCtx where
  fileName : String
  languageId : String
  workspaceFolder : Option String
deriving DecidableEq, Repr

/-- In-memory state of class GitTracker: the set of known git roots
(iteration order of the JS Set), and the per-root cached commit and
branch maps (JS Map modelled as association lists). -/
structure GitState where
  gitRoots : List String
  currentCommit : List (String × String)
  currentBranch : List (String × String)
deriving DecidableEq, Repr

/-- path.sep on the platform the extension runs on (modelled as "/"). -/
def pathSep : String := "/"

/-- JS String.prototype.startsWith modelled on the character lists of
the strings (the built-in String.startsWith is not kernel-reducible). -/
def strStartsWith (s pre : String) : Bool :=
  pre.data.isPrefixOf s.data

/-- The root-containment test shared by getGitRootForPath,
getActiveCommitForPath and getActiveBranchForPath (gitTracker.ts lines
259-263, 281-286, 300-304): `fsPath === root || fsPath.startsWith(root +
path.sep) || fsPath.startsWith(root + "/")`. -/
def matchesRoot (root p : String) : Bool :=
  p == root || strStartsWith p (root ++ pathSep) || strStartsWith p (root ++ "/")

/-- The longest-match accumulation loop that getGitRootForPath,
getActiveCommitForPath and getActiveBranchForPath each repeat verbatim
over `this.gitRoots` (gitTracker.ts lines 255-271, 278-294, 296-312):
keep the first matching root seen, replace it only by a strictly longer
matching root. -/
def bestRootLoop (p : String) : List String → Option String → Option String
  | [], best => best
  | root :: rest, best =>
    if matchesRoot root p then
      match best with
      | none => bestRootLoop p rest (some root)
      | some b =>
        if root.length > b.length then bestRootLoop p rest (some root)
        else bestRootLoop p rest (some b)
    else bestRootLoop p rest best

/-- GitTracker.getGitRootForPath (gitTracker.ts lines 296-312). -/
def getGitRootForPath (g : GitState) (p : String) : Option String :=
  bestRootLoop p g.gitRoots none

/-- GitTracker.getActiveCommitForPath (gitTracker.ts lines 255-271):
same loop, then `bestMatch ? this.currentCommit.get(bestMatch) :
undefined`. -/
def getActiveCommitForPath (g : GitState) (p : String) : Option String :=
  match bestRootLoop p g.gitRoots none with
  | some best => g.currentCommit.lookup best
  | none => none

/-- GitTracker.getActiveBranchForPath (gitTracker.ts lines 278-294). -/
def getActiveBranchForPath (g : GitState) (p : String) : Option String :=
  match bestRootLoop p g.gitRoots none with
  | some best => g.currentBranch.lookup best
  | none => none

/-- Mutable fields of class Tracker that the activity / lifecycle logic
touches.  `subscribed` models whether the host event subscriptions
created in startTracking are live (disposed = false); `timerPending`
whether a setTimeout for syncLoop is armed; `cycleInFlight` whether a
syncLoop invocation is between its entry check and its final
reschedule. -/
structure TrackerState where
  isTracking : Bool
  subscribed : Bool
  timerPending : Bool
  cycleInFlight : Bool
  queue : List ActivityLog
  lastActivityTime : Int
deriving DecidableEq, Repr

/-- Result of one handleActivity invocation: the updated tracker state,
the ActivityLog pushed (if any), and whether the git/project resolution
step (tracker.ts lines 115-132) was reached. -/
structure HandleResult where
  state : TrackerState
  pushed : Option ActivityLog
  resolvedProject : Bool
deriving DecidableEq, Repr

/-- Tracker.handleActivity (tracker.ts lines 95-156).  `now` is the
Date.now() reading; `editor` is vscode.window.activeTextEditor.  The
debounce check is `timeDiff < this.debounceInterval` with no test of
lastActivityTime (line 100); duration is timeDiff only when
`this.lastActivityTime !== 0 && timeDiff < this.maxIdleTime` (line 106);
lastActivityTime is updated before the editor check (lines 110-113). -/
def handleActivity (g : GitState) (s : TrackerState) (now : Int)
    (editor : Option EditorCtx) : HandleResult :=
  let timeDiff := now - s.lastActivityTime
  if timeDiff < debounceInterval then
    ⟨s, none, false⟩
  else
    let duration : Int :=
      if s.lastActivityTime ≠ 0 ∧ timeDiff < maxIdleTime then timeDiff else 0
    let s1 := { s with lastActivityTime := now }
    match editor with
    | none => ⟨s1, none, false⟩
    | some ed =>
      let filePath := ed.fileName
      let gitRoot := getGitRootForPath g filePath
      let projectPath :=
        match gitRoot with
        | some r => r
        | none =>
          match ed.workspaceFolder with
          | some w => w
          | none => ""
      let commitHash := getActiveCommitForPath g filePath
      let branch := getActiveBranchForPath g filePath
      let log : ActivityLog :=
        ⟨projectPath, filePath, ed.languageId, now, duration, "vscode",
          commitHash, branch⟩
      ⟨{ s1 with queue := s1.queue ++ [log] }, some log, true⟩

/-- C1 counterexample: the claim asserts a first-ever event
(lastActivityTime == 0) is never discarded by debouncing, whatever its
timestamp.  The source's debounce check (tracker.ts line 100) is
`timeDiff < this.debounceInterval` with no lastActivityTime guard, so a
first-ever event with now = 1000 has timeDiff = 1000 < 2000 and is
discarded even though an active editor is present. -/
theorem C1_first_event_discarded_counterexample :
    handleActivity ⟨[], [], []⟩ ⟨true, true, false, false, [], 0⟩ 1000
      (some ⟨"/w/a.ts", "typescript", none⟩) =
      ⟨⟨true, true, false, false, [], 0⟩, none, false⟩ := by
  decide

/-- C1 (amended): an event with lastActivityTime != 0 and gap < 2000 ms
is discarded completely (no ActivityLog pushed, state unchanged); when
lastActivityTime == 0 the event is debounce-discarded exactly when
now < 2000 ms, so the first-ever event is never discarded provided its
timestamp is at least the debounce interval. -/
theorem C1_debounce_amended (g : GitState) (s : TrackerState) (now : Int)
    (editor : Option EditorCtx) :
    (s.lastActivityTime ≠ 0 → now - s.lastActivityTime < debounceInterval →
      handleActivity g s now editor = ⟨s, none, false⟩) ∧
    (s.lastActivityTime = 0 → now < debounceInterval →
      handleActivity g s now editor = ⟨s, none, false⟩) ∧
    (s.lastActivityTime = 0 → debounceInterval ≤ now →
      (handleActivity g s now editor).state.lastActivityTime = now) := by
  refine ⟨fun _ hgap => ?_, fun h0 hlt => ?_, fun h0 hge => ?_⟩
  · unfold handleActivity
    simp [hgap]
  · unfold handleActivity
    simp [h0, hlt]
  · unfold handleActivity
    rw [h0]
    simp only [Int.sub_zero, if_neg (not_lt.mpr hge)]
    cases editor <;> simp

theorem C1_debounce_amended_witness :
    handleActivity ⟨[], [], []⟩ ⟨true, true, false, false, [], 5000⟩ 5500
        (some ⟨"/w/a.ts", "typescript", none⟩) =
      ⟨⟨true, true, false, false, [], 5000⟩, none, false⟩ :=
  (C1_debounce_amended ⟨[], [], []⟩ ⟨true, true, false, false, [], 5000⟩ 5500
    (some ⟨"/w/a.ts", "typescript", none⟩)).1 (by decide) (by decide)

/-- C2: for every accepted (pushed) event, duration is 0 when it is the
first-ever accepted event (lastActivityTime == 0) or the gap is at
least 5 minutes; for gaps in [2000 ms, 300000 ms) the duration equals
the gap. -/
theorem C2_duration_rule (g : GitState) (s : TrackerState) (now : Int)
    (editor : Option EditorCtx) (log : ActivityLog)
    (hp : (handleActivity g s now editor).pushed = some log) :
    (s.lastActivityTime = 0 → log.duration = 0) ∧
    (s.lastActivityTime ≠ 0 → maxIdleTime ≤ now - s.lastActivityTime →
      log.duration = 0) ∧
    (s.lastActivityTime ≠ 0 → debounceInterval ≤ now - s.lastActivityTime →
      now - s.lastActivityTime < maxIdleTime →
      log.duration = now - s.lastActivityTime) := by
  unfold handleActivity at hp
  by_cases hd : now - s.lastActivityTime < debounceInterval
  · simp [hd] at hp
  · cases editor with
    | none => simp [hd] at hp
    | some ed =>
      simp only [hd, if_false, Option.some.injEq] at hp
      refine ⟨fun h0 => ?_, fun hne hidle => ?_, fun hne hlo hhi => ?_⟩
      · have : log.duration = if s.lastActivityTime ≠ 0 ∧
            now - s.lastActivityTime < maxIdleTime
            then now - s.lastActivityTime else 0 := by
          rw [← hp]
        rw [this, if_neg]
        intro hc
        exact hc.1 h0
      · have : log.duration = if s.lastActivityTime ≠ 0 ∧
            now - s.lastActivityTime < maxIdleTime
            then now - s.lastActivityTime else 0 := by
          rw [← hp]
        rw [this, if_neg]
        intro hc
        exact absurd hc.2 (not_lt.mpr hidle)
      · have : log.duration = if s.lastActivityTime ≠ 0 ∧
            now - s.lastActivityTime < maxIdleTime
            then now - s.lastActivityTime else 0 := by
          rw [← hp]
        rw [this, if_pos ⟨hne, hhi⟩]

theorem C2_duration_rule_witness :
    ((handleActivity ⟨[], [], []⟩ ⟨true, true, false, false, [], 5000⟩ 8000
        (some ⟨"/w/a.ts", "typescript", none⟩)).pushed.map
          ActivityLog.duration) = some 3000 := by
  have h := C2_duration_rule ⟨[], [], []⟩ ⟨true, true, false, false, [], 5000⟩
    8000 (some ⟨"/w/a.ts", "typescript", none⟩)
    ⟨"", "/w/a.ts", "typescript", 8000, 3000, "vscode", none, none⟩ (by decide)
  have hd := h.2.2 (by decide) (by decide) (by decide)
  decide

/-- C9: a non-debounced event with no active editor pushes no
ActivityLog and never reaches the project/commit/branch resolution
step, while lastActivityTime has nonetheless been updated to now. -/
theorem C9_no_editor_updates_time (g : GitState) (s : TrackerState) (now : Int)
    (h : debounceInterval ≤ now - s.lastActivityTime) :
    handleActivity g s now none =
      ⟨{ s with lastActivityTime := now }, none, false⟩ := by
  unfold handleActivity
  simp [not_lt.mpr h]

theorem C9_no_editor_updates_time_witness :
    handleActivity ⟨[], [], []⟩ ⟨true, true, false, false, [], 5000⟩ 8000 none =
      ⟨⟨true, true, false, false, [], 8000⟩, none, false⟩ :=
  C9_no_editor_updates_time ⟨[], [], []⟩ ⟨true, true, false, false, [], 5000⟩
    8000 (by decide)

/-- Characterisation of the longest-match accumulation loop: a returned
root either comes from the list (and matches the path) or is the
accumulator; it is at least as long as every matching root of the list
and as the accumulator; and a `none` result means the accumulator was
`none` and no root of the list matches. -/
theorem bestRootLoop_spec (p : String) (roots : List String) :
    ∀ acc : Option String,
      (∀ r, bestRootLoop p roots acc = some r →
        ((r ∈ roots ∧ matchesRoot r p = true) ∨ acc = some r) ∧
        (∀ x ∈ roots, matchesRoot x p = true → x.length ≤ r.length) ∧
        (∀ b, acc = some b → b.length ≤ r.length)) ∧
      (bestRootLoop p roots acc = none →
        acc = none ∧ ∀ x ∈ roots, matchesRoot x p = false) := by
  induction roots with
  | nil =>
    intro acc
    constructor
    · intro r hr
      simp only [bestRootLoop] at hr
      refine ⟨Or.inr hr, by simp, fun b hb => ?_⟩
      rw [hr] at hb
      injection hb with hb
      rw [hb]
    · intro hn
      simp only [bestRootLoop] at hn
      exact ⟨hn, by simp⟩
  | cons root rest ih =>
    intro acc
    by_cases hm : matchesRoot root p = true
    · cases acc with
      | none =>
        have hrec : bestRootLoop p (root :: rest) none =
            bestRootLoop p rest (some root) := by
          simp only [bestRootLoop, hm, if_true]
        constructor
        · intro r hr
          rw [hrec] at hr
          obtain ⟨h1, h2, h3⟩ := (ih (some root)).1 r hr
          refine ⟨?_, ?_, by simp⟩
          · rcases h1 with ⟨hmem, hmx⟩ | heq
            · exact Or.inl ⟨List.mem_cons_of_mem _ hmem, hmx⟩
            · injection heq with heq
              exact Or.inl ⟨heq ▸ List.mem_cons_self _ _, heq ▸ hm⟩
          · intro x hx hmx
            rcases List.mem_cons.mp hx with hx | hx
            · exact hx ▸ h3 root rfl
            · exact h2 x hx hmx
        · intro hn
          rw [hrec] at hn
          exact absurd ((ih (some root)).2 hn).1 (by simp)
      | some b =>
        by_cases hlen : root.length > b.length
        · have hrec : bestRootLoop p (root :: rest) (some b) =
              bestRootLoop p rest (some root) := by
            simp only [bestRootLoop, hm, if_true, hlen, if_true]
          constructor
          · intro r hr
            rw [hrec] at hr
            obtain ⟨h1, h2, h3⟩ := (ih (some root)).1 r hr
            refine ⟨?_, ?_, ?_⟩
            · rcases h1 with ⟨hmem, hmx⟩ | heq
              · exact Or.inl ⟨List.mem_cons_of_mem _ hmem, hmx⟩
              · injection heq with heq
                exact Or.inl ⟨heq ▸ List.mem_cons_self _ _, heq ▸ hm⟩
            · intro x hx hmx
              rcases List.mem_cons.mp hx with hx | hx
              · exact hx ▸ h3 root rfl
              · exact h2 x hx hmx
            · intro b' hb'
              injection hb' with hb'
              exact hb' ▸ le_trans (le_of_lt hlen) (h3 root rfl)
          · intro hn
            rw [hrec] at hn
            exact absurd ((ih (some root)).2 hn).1 (by simp)
        · have hrec : bestRootLoop p (root :: rest) (some b) =
              bestRootLoop p rest (some b) := by
            simp only [bestRootLoop, hm, if_true, hlen, if_false]
          constructor
          · intro r hr
            rw [hrec] at hr
            obtain ⟨h1, h2, h3⟩ := (ih (some b)).1 r hr
            refine ⟨?_, ?_, h3⟩
            · rcases h1 with ⟨hmem, hmx⟩ | heq
              · exact Or.inl ⟨List.mem_cons_of_mem _ hmem, hmx⟩
              · exact Or.inr heq
            · intro x hx hmx
              rcases List.mem_cons.mp hx with hx | hx
              · exact hx ▸ le_trans (not_lt.mp hlen) (h3 b rfl)
              · exact h2 x hx hmx
          · intro hn
            rw [hrec] at hn
            exact absurd ((ih (some b)).2 hn).1 (by simp)
    · have hrec : bestRootLoop p (root :: rest) acc =
          bestRootLoop p rest acc := by
        simp only [bestRootLoop]
        rw [if_neg hm]
      constructor
      · intro r hr
        rw [hrec] at hr
        obtain ⟨h1, h2, h3⟩ := (ih acc).1 r hr
        refine ⟨?_, ?_, h3⟩
        · rcases h1 with ⟨hmem, hmx⟩ | heq
          · exact Or.inl ⟨List.mem_cons_of_mem _ hmem, hmx⟩
          · exact Or.inr heq
        · intro x hx hmx
          rcases List.mem_cons.mp hx with hx | hx
          · exact absurd (hx ▸ hmx) (by simpa using hm)
          · exact h2 x hx hmx
      · intro hn
        rw [hrec] at hn
        obtain ⟨ha, hall⟩ := (ih acc).2 hn
        refine ⟨ha, fun x hx => ?_⟩
        rcases List.mem_cons.mp hx with hx | hx
        · exact hx ▸ (Bool.not_eq_true _).mp hm
        · exact hall x hx

/-- C4: getGitRootForPath returns a known root that contains the path
(equal, or a prefix followed by a separator), longest among all known
matching roots; getActiveCommitForPath / getActiveBranchForPath select
their root by the very same rule; with roots /a and /a/b (in either
registration order) the path /a/b/file.ts resolves to /a/b.  The
functions are pure, so determinism (equal inputs, equal outputs) is
immediate. -/
theorem C4_longest_prefix_root (g : GitState) (p : String) :
    (∀ r, getGitRootForPath g p = some r →
      r ∈ g.gitRoots ∧ matchesRoot r p = true ∧
        ∀ x ∈ g.gitRoots, matchesRoot x p = true → x.length ≤ r.length) ∧
    (getGitRootForPath g p = none →
      ∀ x ∈ g.gitRoots, matchesRoot x p = false) ∧
    getActiveCommitForPath g p =
      (getGitRootForPath g p).bind (fun r => g.currentCommit.lookup r) ∧
    getActiveBranchForPath g p =
      (getGitRootForPath g p).bind (fun r => g.currentBranch.lookup r) ∧
    getGitRootForPath ⟨["/a", "/a/b"], [], []⟩ "/a/b/file.ts" = some "/a/b" ∧
    getGitRootForPath ⟨["/a/b", "/a"], [], []⟩ "/a/b/file.ts" = some "/a/b" := by
  refine ⟨fun r hr => ?_, fun hn => ?_, ?_, ?_, by decide, by decide⟩
  · obtain ⟨h1, h2, _⟩ := (bestRootLoop_spec p g.gitRoots none).1 r hr
    rcases h1 with ⟨hmem, hmx⟩ | heq
    · exact ⟨hmem, hmx, h2⟩
    · cases heq
  · exact ((bestRootLoop_spec p g.gitRoots none).2 hn).2
  · unfold getActiveCommitForPath getGitRootForPath
    cases bestRootLoop p g.gitRoots none <;> simp
  · unfold getActiveBranchForPath getGitRootForPath
    cases bestRootLoop p g.gitRoots none <;> simp

theorem C4_longest_prefix_root_witness :
    ("/a/b" : String) ∈ (["/a", "/a/b"] : List String) ∧
      matchesRoot "/a/b" "/a/b/file.ts" = true :=
  ⟨((C4_longest_prefix_root ⟨["/a", "/a/b"], [], []⟩ "/a/b/file.ts").1 "/a/b"
      (by decide)).1,
    ((C4_longest_prefix_root ⟨["/a", "/a/b"], [], []⟩ "/a/b/file.ts").1 "/a/b"
      (by decide)).2.1⟩

/-- Tracker.startTracking (tracker.ts lines 37-66): no-op when already
tracking; otherwise sets isTracking, registers the host event
subscriptions, and invokes syncLoop directly, which (isTracking being
true) begins a cycle and flushes the pending queue. -/
def startTracking (s : TrackerState) : TrackerState :=
  if s.isTracking then s
  else { s with isTracking := true, subscribed := true, cycleInFlight := true,
                queue := [] }

/-- Tracker.stopTracking (tracker.ts lines 68-81): no-op when not
tracking; otherwise clears isTracking, disposes the subscriptions and
clears any pending sync timer.  An in-flight syncLoop invocation is not
touched. -/
def stopTracking (s : TrackerState) : TrackerState :=
  if !s.isTracking then s
  else { s with isTracking := false, subscribed := false, timerPending := false }

/-- The sync timer firing: the armed setTimeout invokes syncLoop, which
returns immediately when isTracking is false (tracker.ts line 159) and
otherwise begins a cycle, flushing the pending queue (lines 162-173). -/
def timerFires (s : TrackerState) : TrackerState :=
  if s.timerPending then
    if s.isTracking then
      { s with timerPending := false, cycleInFlight := true, queue := [] }
    else { s with timerPending := false }
  else s

/-- An in-flight syncLoop invocation reaching its end: tracker.ts line
244 re-arms the timer unconditionally (`this.syncTimer = setTimeout(()
=> this.syncLoop(), this.syncInterval)`), even if stopTracking ran
while the cycle was awaiting I/O. -/
def cycleCompletes (s : TrackerState) : TrackerState :=
  if s.cycleInFlight then
    { s with cycleInFlight := false, timerPending := true }
  else s

/-- Events driving the Tracker lifecycle and activity state machine. -/
inductive TEvent where
  | interaction (now : Int) (editor : Option EditorCtx)
  | startT
  | stopT
  | timerT
  | cycleDoneT
deriving DecidableEq, Repr

/-- One step of the Tracker, carrying a ghost history of every
ActivityLog ever pushed onto the pending queue.  Host interaction
events reach handleActivity only while the subscriptions are live. -/
def stepT (g : GitState) : TrackerState × List ActivityLog → TEvent →
    TrackerState × List ActivityLog
  | (s, h), .interaction now ed =>
    if s.subscribed then
      ((handleActivity g s now ed).state,
        h ++ (handleActivity g s now ed).pushed.toList)
    else (s, h)
  | (s, h), .startT => (startTracking s, h)
  | (s, h), .stopT => (stopTracking s, h)
  | (s, h), .timerT => (timerFires s, h)
  | (s, h), .cycleDoneT => (cycleCompletes s, h)

/-- Initial Tracker state (field initialisers, tracker.ts lines 15-22):
not tracking, nothing subscribed, empty queue, lastActivityTime 0. -/
def initTracker : TrackerState := ⟨false, false, false, false, [], 0⟩

/-- Run the Tracker from its initial state over a list of events. -/
def runT (g : GitState) (es : List TEvent) : TrackerState × List ActivityLog :=
  es.foldl (stepT g) (initTracker, [])

/-- Duration invariant for queued records: exactly zero, or in
[debounceInterval, maxIdleTime). -/
def durationOK (d : Int) : Prop :=
  d = 0 ∨ (debounceInterval ≤ d ∧ d < maxIdleTime)

/-- Any log pushed by handleActivity satisfies the duration invariant. -/
theorem handleActivity_pushed_durationOK (g : GitState) (s : TrackerState)
    (now : Int) (editor : Option EditorCtx) (log : ActivityLog)
    (hp : (handleActivity g s now editor).pushed = some log) :
    durationOK log.duration := by
  unfold handleActivity at hp
  by_cases hd : now - s.lastActivityTime < debounceInterval
  · simp [hd] at hp
  · cases editor with
    | none => simp [hd] at hp
    | some ed =>
      simp only [hd, if_false, Option.some.injEq] at hp
      have hdur : log.duration = if s.lastActivityTime ≠ 0 ∧
          now - s.lastActivityTime < maxIdleTime
          then now - s.lastActivityTime else 0 := by
        rw [← hp]
      by_cases hc : s.lastActivityTime ≠ 0 ∧ now - s.lastActivityTime < maxIdleTime
      · rw [hdur, if_pos hc]
        exact Or.inr ⟨not_lt.mp hd, hc.2⟩
      · rw [hdur, if_neg hc]
        exact Or.inl rfl

/-- The ghost-history invariant is preserved by every step. -/
theorem stepT_preserves_durationOK (g : GitState) (s : TrackerState)
    (h : List ActivityLog) (e : TEvent)
    (hinv : ∀ l ∈ h, durationOK l.duration) :
    ∀ l ∈ (stepT g (s, h) e).2, durationOK l.duration := by
  cases e with
  | interaction now ed =>
    intro l hl
    simp only [stepT] at hl
    by_cases hs : s.subscribed = true
    · rw [if_pos hs] at hl
      simp only at hl
      rcases List.mem_append.mp hl with hl | hl
      · exact hinv l hl
      · cases hpush : (handleActivity g s now ed).pushed with
        | none => rw [hpush] at hl; simp [Option.toList] at hl
        | some log =>
          rw [hpush] at hl
          simp only [Option.toList, List.mem_singleton] at hl
          subst hl
          exact handleActivity_pushed_durationOK g s now ed l hpush
    · rw [if_neg hs] at hl
      exact hinv l hl
  | startT => exact hinv
  | stopT => exact hinv
  | timerT => exact hinv
  | cycleDoneT => exact hinv

/-- Preservation of the duration invariant along any event fold. -/
theorem foldl_stepT_durationOK (g : GitState) (es : List TEvent) :
    ∀ start : TrackerState × List ActivityLog,
      (∀ l ∈ start.2, durationOK l.duration) →
      ∀ l ∈ (es.foldl (stepT g) start).2, durationOK l.duration := by
  induction es with
  | nil => exact fun _ hs => hs
  | cons e rest ih =>
    intro start hs
    simp only [List.foldl_cons]
    exact ih (stepT g start e)
      (stepT_preserves_durationOK g start.1 start.2 e hs)

/-- C10: in every reachable Tracker state, every ActivityLog ever
pushed onto the pending queue has duration exactly 0 or in
[2000 ms, 300000 ms) — never negative, never strictly between 0 and the
debounce interval, never at or above the idle threshold. -/
theorem C10_queued_duration_invariant (g : GitState) (es : List TEvent)
    (log : ActivityLog) (hmem : log ∈ (runT g es).2) :
    log.duration = 0 ∨
      (debounceInterval ≤ log.duration ∧ log.duration < maxIdleTime) :=
  foldl_stepT_durationOK g es (initTracker, [])
    (by intro l hl; cases hl) log hmem

theorem C10_queued_duration_invariant_witness :
    (⟨"", "/w/a.ts", "typescript", 9000, 4000, "vscode", none,
        none⟩ : ActivityLog).duration = 0 ∨
      (debounceInterval ≤ (4000 : Int) ∧ (4000 : Int) < maxIdleTime) :=
  C10_queued_duration_invariant ⟨[], [], []⟩
    [.startT, .interaction 5000 (some ⟨"/w/a.ts", "typescript", none⟩),
      .interaction 9000 (some ⟨"/w/a.ts", "typescript", none⟩)]
    ⟨"", "/w/a.ts", "typescript", 9000, 4000, "vscode", none, none⟩
    (by decide)

/-- C8 counterexample: the claim asserts that after stopTracking no
further sync cycle is scheduled, including when a cycle was in flight
at the moment of stopping.  Start tracking (a cycle begins), stop while
it is in flight, let it complete: tracker.ts line 244 re-arms the
timer unconditionally, so a sync timer is pending after stopping. -/
theorem C8_inflight_reschedule_counterexample :
    (runT ⟨[], [], []⟩ [.startT, .stopT, .cycleDoneT]).1.timerPending = true := by
  decide

/-- C8 (amended): stopTracking on a tracking state disposes the host
subscriptions and clears the pending sync timer; a disposed tracker
accepts no further interaction events; a timer firing while not
tracking starts no cycle and re-arms nothing.  However, a sync cycle in
flight at the moment of stopping re-arms the timer once on completion
(tracker.ts line 244); that extra invocation then does nothing. -/
theorem C8_stop_amended (g : GitState) (s : TrackerState)
    (h : List ActivityLog) (now : Int) (ed : Option EditorCtx) :
    (s.isTracking = true →
      (stopTracking s).isTracking = false ∧
      (stopTracking s).subscribed = false ∧
      (stopTracking s).timerPending = false) ∧
    (s.subscribed = false → stepT g (s, h) (.interaction now ed) = (s, h)) ∧
    (s.isTracking = false →
      (timerFires s).cycleInFlight = s.cycleInFlight ∧
      (timerFires s).timerPending = false ∧
      (timerFires s).queue = s.queue) ∧
    (s.cycleInFlight = true → (cycleCompletes s).timerPending = true) := by
  refine ⟨fun ht => ?_, fun hsub => ?_, fun ht => ?_, fun hc => ?_⟩
  · unfold stopTracking
    rw [ht]
    simp
  · simp only [stepT]
    rw [if_neg (by simp [hsub])]
  · unfold timerFires
    rw [ht]
    by_cases hp : s.timerPending = true
    · rw [hp]
      simp
    · rw [Bool.not_eq_true] at hp
      rw [hp]
      simp [hp]
  · unfold cycleCompletes
    rw [hc]
    simp

theorem C8_stop_amended_witness :
    (stopTracking ⟨true, true, false, true, [], 0⟩).isTracking = false ∧
      (stopTracking ⟨true, true, false, true, [], 0⟩).subscribed = false ∧
      (stopTracking ⟨true, true, false, true, [], 0⟩).timerPending = false :=
  (C8_stop_amended ⟨[], [], []⟩ ⟨true, true, false, true, [], 0⟩ [] 0 none).1
    (by decide)

/-- Commit details returned by GitTracker.getCommitDetails on success
(gitTracker.ts lines 133-141). -/
structure CommitDetails where
  message : String
  author : String
  authorEmail : String
  timestamp : Int
  filesChanged : Nat
  linesAdded : Nat
  linesDeleted : Nat
deriving DecidableEq, Repr

/-- GitCommit row persisted to the database (gitTracker.ts lines
167-180). -/
structure GitCommit where
  projectPath : String
  commitHash : String
  message : String
  author : String
  authorEmail : String
  timestamp : Int
  filesChanged : Nat
  linesAdded : Nat
  linesDeleted : Nat
  branch : Option String
deriving DecidableEq, Repr

/-- State touched by GitTracker.trackCommitChange: the per-root cached
commit and branch maps, and the GitCommit rows inserted into the
database. -/
structure GitTrackerState where
  currentCommit : List (String × String)
  currentBranch : List (String × String)
  commitRows : List GitCommit
deriving DecidableEq, Repr

/-- JS Map.prototype.set on an association list: replace the value of an
existing key in place, else append the binding. -/
def mapSet : List (String × String) → String → String → List (String × String)
  | [], k, v => [(k, v)]
  | (k0, v0) :: rest, k, v =>
    if k0 = k then (k, v) :: rest else (k0, v0) :: mapSet rest k v

/-- JS truthiness of the branch string: `branch || undefined` and
`if (branch)` treat both null (query failure) and the empty string
(detached HEAD) as absent. -/
def branchTruthy : Option String → Option String
  | some b => if b = "" then none else some b
  | none => none

/-- GitTracker.trackCommitChange (gitTracker.ts lines 151-187).
`newCommit` is the getCurrentCommit result (null on any git failure),
`details` the getCommitDetails result (null on any git failure),
`branch` the getBranch result (null on failure).  If newCommit is null
the method returns at once; if it equals the cached commit it returns;
otherwise a GitCommit row is inserted only when details is non-null,
and afterwards `this.currentCommit.set(gitRoot, newCommit)` runs
unconditionally (line 183), with the branch cache updated only for a
truthy branch. -/
def trackCommitChange (st : GitTrackerState) (gitRoot : String)
    (newCommit : Option String) (details : Option CommitDetails)
    (branch : Option String) : GitTrackerState :=
  match newCommit with
  | none => st
  | some nc =>
    if st.currentCommit.lookup gitRoot = some nc then st
    else
      let st1 :=
        match details with
        | some d =>
          { st with commitRows := st.commitRows ++
              [GitCommit.mk gitRoot nc d.message d.author d.authorEmail
                d.timestamp d.filesChanged d.linesAdded d.linesDeleted
                (branchTruthy branch)] }
        | none => st
      let st2 :=
        { st1 with currentCommit := mapSet st1.currentCommit gitRoot nc }
      match branchTruthy branch with
      | some b => { st2 with currentBranch := mapSet st2.currentBranch gitRoot b }
      | none => st2

/-- Setting a key makes lookup return the new value. -/
theorem mapSet_lookup (m : List (String × String)) (k v : String) :
    (mapSet m k v).lookup k = some v := by
  induction m with
  | nil => simp [mapSet]
  | cons kv rest ih =>
    obtain ⟨k0, v0⟩ := kv
    by_cases h : k0 = k
    · simp [mapSet, h]
    · have hbeq : (k == k0) = false := beq_false_of_ne (Ne.symm h)
      simp [mapSet, h, List.lookup, hbeq, ih]

/-- C3 counterexample: with an empty cache, a trigger for root /repo
whose HEAD query succeeds ("abc123") but whose commit-details query
fails (returns null) persists no row, yet updates the cached commit
anyway (gitTracker.ts line 183 runs outside the `if (details)` block);
a later trigger for the same HEAD — this time with details available —
is then a no-op, so the commit is never persisted and never retried,
contradicting the claimed unchanged-and-retried behaviour. -/
theorem C3_details_failure_counterexample :
    (trackCommitChange ⟨[], [], []⟩ "/repo" (some "abc123") none
        none).currentCommit = [("/repo", "abc123")] ∧
      (trackCommitChange ⟨[], [], []⟩ "/repo" (some "abc123") none
        none).commitRows = [] ∧
      trackCommitChange
          (trackCommitChange ⟨[], [], []⟩ "/repo" (some "abc123") none none)
          "/repo" (some "abc123")
          (some ⟨"msg", "au", "au@x", 1000, 1, 2, 3⟩) (some "main") =
        trackCommitChange ⟨[], [], []⟩ "/repo" (some "abc123") none none := by
  decide

/-- C3 (amended): a getCurrentCommit failure (null HEAD) leaves the
whole state unchanged, so detection is retried on the next trigger; a
getCommitDetails failure persists no row but still updates the cached
commit to the new hash (so the same HEAD is not retried); a getBranch
failure does not prevent the row from being persisted — the row is
stored with an absent branch and the cached branch is unchanged. -/
theorem C3_git_failure_amended (st : GitTrackerState) (root nc : String)
    (d : Option CommitDetails) (b : Option String) :
    (trackCommitChange st root none d b = st) ∧
    (st.currentCommit.lookup root ≠ some nc →
      (trackCommitChange st root (some nc) none b).commitRows = st.commitRows ∧
      (trackCommitChange st root (some nc) none b).currentCommit.lookup root =
        some nc ∧
      trackCommitChange (trackCommitChange st root (some nc) none b) root
          (some nc) d b =
        trackCommitChange st root (some nc) none b) ∧
    (st.currentCommit.lookup root ≠ some nc → ∀ dd : CommitDetails,
      (trackCommitChange st root (some nc) (some dd) none).commitRows =
        st.commitRows ++ [⟨root, nc, dd.message, dd.author, dd.authorEmail,
          dd.timestamp, dd.filesChanged, dd.linesAdded, dd.linesDeleted,
          none⟩] ∧
      (trackCommitChange st root (some nc) (some dd) none).currentBranch =
        st.currentBranch) := by
  refine ⟨rfl, fun hne => ?_, fun hne dd => ?_⟩
  · cases hb : branchTruthy b with
    | none =>
      have hres : trackCommitChange st root (some nc) none b =
          ⟨mapSet st.currentCommit root nc, st.currentBranch, st.commitRows⟩ := by
        simp [trackCommitChange, hne, hb]
      rw [hres]
      exact ⟨rfl, mapSet_lookup _ _ _, by simp [trackCommitChange, mapSet_lookup]⟩
    | some bb =>
      have hres : trackCommitChange st root (some nc) none b =
          ⟨mapSet st.currentCommit root nc, mapSet st.currentBranch root bb,
            st.commitRows⟩ := by
        simp [trackCommitChange, hne, hb]
      rw [hres]
      exact ⟨rfl, mapSet_lookup _ _ _, by simp [trackCommitChange, mapSet_lookup]⟩
  · have hres : trackCommitChange st root (some nc) (some dd) none =
        ⟨mapSet st.currentCommit root nc, st.currentBranch,
          st.commitRows ++ [GitCommit.mk root nc dd.message dd.author
            dd.authorEmail dd.timestamp dd.filesChanged dd.linesAdded
            dd.linesDeleted none]⟩ := by
      simp [trackCommitChange, hne, branchTruthy]
    rw [hres]
    exact ⟨rfl, rfl⟩

theorem C3_git_failure_amended_witness :
    (trackCommitChange ⟨[("/repo", "old")], [], []⟩ "/repo" (some "new") none
        none).commitRows = [] ∧
      (trackCommitChange ⟨[("/repo", "old")], [], []⟩ "/repo" (some "new") none
        none).currentCommit.lookup "/repo" = some "new" ∧
      trackCommitChange
          (trackCommitChange ⟨[("/repo", "old")], [], []⟩ "/repo" (some "new")
            none none) "/repo" (some "new") none none =
        trackCommitChange ⟨[("/repo", "old")], [], []⟩ "/repo" (some "new")
          none none :=
  (C3_git_failure_amended ⟨[("/repo", "old")], [], []⟩ "/repo" "new" none
    none).2.1 (by decide)

/-- FileActivitySummary aggregate (storage/database shape, fields as
sent by ApiClient.syncFileActivities, client.ts lines 371-382). -/
structure FileActivitySummary where
  projectPath : String
  commitHash : Option String
  branch : Option String
  filePath : String
  language : String
  totalDuration : Int
  activityCount : Int
  firstActivityAt : Int
  lastActivityAt : Int
  editor : String
deriving DecidableEq, Repr

/-- Modelled from the spec: Database.getAggregatedActivities is not
under src/ (only its caller in tracker.ts is); the spec says "fetch up
to 50 pending FileActivitySummary aggregates" — the first `n` pending
summaries of the store. -/
def getAggregatedActivities (store : List FileActivitySummary) (n : Nat) :
    List FileActivitySummary :=
  store.take n

/-- Modelled from the spec: Database.deleteAggregatedActivities is not
under src/; the spec says "on acknowledgement, delete exactly those
summaries" — remove the batch's summaries from the store. -/
def deleteAggregatedActivities (store batch : List FileActivitySummary) :
    List FileActivitySummary :=
  store.filter (fun x => !(batch.contains x))

/-- The file-activity phase of Tracker.syncLoop (tracker.ts lines
205-223): fetch up to 50 aggregates; if the batch is nonempty, send it
(apiSuccess is the boolean the remote client reports) and delete it
only on success.  Returns the new store and the batch sent, none when
nothing was sent. -/
def syncFileActivitiesPhase (store : List FileActivitySummary)
    (apiSuccess : Bool) :
    List FileActivitySummary × Option (List FileActivitySummary) :=
  let aggregated := getAggregatedActivities store 50
  if aggregated.length > 0 then
    if apiSuccess then
      (deleteAggregatedActivities store aggregated, some aggregated)
    else (store, some aggregated)
  else (store, none)

/-- C5: the fetched batch is deleted from local storage exactly when
the remote call reports success: on success every summary of the batch
is gone from the store; on failure the store is untouched and the next
cycle fetches and sends the very same batch; any change to the store
implies the call succeeded; a nonempty store always produces a sent
batch of the first 50 summaries. -/
theorem C5_ack_gated_deletion (store : List FileActivitySummary) (ok : Bool) :
    (ok = true → ∀ x ∈ getAggregatedActivities store 50,
      x ∉ (syncFileActivitiesPhase store ok).1) ∧
    (ok = false → (syncFileActivitiesPhase store ok).1 = store ∧
      syncFileActivitiesPhase (syncFileActivitiesPhase store ok).1 false =
        syncFileActivitiesPhase store false) ∧
    (store ≠ [] → (syncFileActivitiesPhase store ok).2 =
      some (getAggregatedActivities store 50)) ∧
    ((syncFileActivitiesPhase store ok).1 ≠ store → ok = true) := by
  refine ⟨fun hok x hx hmem => ?_, fun hok => ?_, fun hne => ?_, fun hch => ?_⟩
  · subst hok
    unfold syncFileActivitiesPhase at hmem
    by_cases hlen : (getAggregatedActivities store 50).length > 0
    · rw [if_pos hlen, if_pos rfl] at hmem
      simp only at hmem
      have := List.mem_filter.mp hmem
      rw [Bool.not_eq_true', List.contains_eq_any_beq] at this
      have hnone := this.2
      simp only [List.any_eq_false] at hnone
      exact absurd (by simp : (x == x) = true) (by simpa using hnone x hx)
    · exact absurd (by simpa [getAggregatedActivities] using
        List.length_pos.mpr (by
          intro h0
          rw [h0] at hx
          simp [getAggregatedActivities] at hx)) hlen
  · subst hok
    have h1 : (syncFileActivitiesPhase store false).1 = store := by
      unfold syncFileActivitiesPhase
      by_cases hlen : (getAggregatedActivities store 50).length > 0
      · rw [if_pos hlen]
        simp
      · rw [if_neg hlen]
    exact ⟨h1, by rw [h1]⟩
  · have hlen : (getAggregatedActivities store 50).length > 0 := by
      simpa [getAggregatedActivities] using List.length_pos.mpr hne
    unfold syncFileActivitiesPhase
    rw [if_pos hlen]
    cases ok <;> simp
  · by_contra hok
    rw [Bool.not_eq_true] at hok
    subst hok
    apply hch
    unfold syncFileActivitiesPhase
    by_cases hlen : (getAggregatedActivities store 50).length > 0
    · rw [if_pos hlen]
      simp
    · rw [if_neg hlen]

theorem C5_ack_gated_deletion_witness :
    (syncFileActivitiesPhase
        [⟨"/p", some "abc", some "main", "/p/a.ts", "ts", 5, 1, 0, 5, "vscode"⟩]
        false).1 =
      [⟨"/p", some "abc", some "main", "/p/a.ts", "ts", 5, 1, 0, 5, "vscode"⟩] :=
  ((C5_ack_gated_deletion
      [⟨"/p", some "abc", some "main", "/p/a.ts", "ts", 5, 1, 0, 5, "vscode"⟩]
      false).2.1 rfl).1

/-- A calendar date (year, month 1-12, day 1-31), for the syncLoop's
yesterday computation. -/
structure SimpleDate where
  year : Nat
  month : Nat
  day : Nat
deriving DecidableEq, Repr

/-- Gregorian leap-year rule (as implemented by the JS Date object the
syncLoop relies on). -/
def isLeapYear (y : Nat) : Bool :=
  (y % 4 == 0 && y % 100 != 0) || y % 400 == 0

/-- Days in a month of a given year. -/
def daysInMonth (y m : Nat) : Nat :=
  if m = 2 then (if isLeapYear y then 29 else 28)
  else if m = 4 ∨ m = 6 ∨ m = 9 ∨ m = 11 then 30
  else 31

/-- JS `d.setDate(d.getDate() - 1)` (tracker.ts lines 178-179): step
one calendar day back, rolling over month and year boundaries. -/
def prevDay (d : SimpleDate) : SimpleDate :=
  if d.day > 1 then ⟨d.year, d.month, d.day - 1⟩
  else if d.month > 1 then ⟨d.year, d.month - 1, daysInMonth d.year (d.month - 1)⟩
  else ⟨d.year - 1, 12, 31⟩

/-- Zero-pad a month/day number to two digits. -/
def pad2 (n : Nat) : String :=
  if n < 10 then "0" ++ toString n else toString n

/-- `toISOString().split("T")[0]` (tracker.ts line 180): the YYYY-MM-DD
date string. -/
def isoDateStr (d : SimpleDate) : String :=
  toString d.year ++ "-" ++ pad2 d.month ++ "-" ++ pad2 d.day

/-- Lexicographic comparison of character sequences by code point:
at the first differing position the smaller code wins; a proper prefix
is smaller than the longer sequence. -/
def codeUnitsLt : List Char → List Char → Bool
  | _, [] => false
  | [], _ :: _ => true
  | c :: cs, d :: ds =>
    if c.toNat < d.toNat then true
    else if d.toNat < c.toNat then false
    else codeUnitsLt cs ds

/-- The JS `<` relational comparison on strings (code-unit
lexicographic), used by `stat.date < yesterdayStr` in tracker.ts line
184.  For ISO YYYY-MM-DD strings this coincides with chronological
order. -/
def jsStringLt (a b : String) : Bool :=
  codeUnitsLt a.data b.data

/-- DailyActivitySummary aggregate (storage/database shape, fields as
sent by ApiClient.syncDailyStats, client.ts lines 418-425). -/
structure DailyActivitySummary where
  date : String
  projectPath : String
  totalDuration : Int
  languageBreakdown : List (String × Int)
  filesEdited : List String
  commitCount : Int
deriving DecidableEq, Repr

/-- Modelled from the spec: Database.getDailyAggregatedActivities is
not under src/ (only its caller in tracker.ts is); the spec says "fetch
up to 30 most recent daily aggregates" — the first `n` summaries of the
store. -/
def getDailyAggregatedActivities (store : List DailyActivitySummary) (n : Nat) :
    List DailyActivitySummary :=
  store.take n

/-- The daily-stats selection of Tracker.syncLoop (tracker.ts lines
177-185): compute yesterday's ISO date string from the cycle's run
date, fetch up to 30 daily aggregates, and keep exactly those with
`stat.date < yesterdayStr` (JS lexicographic string comparison); only
this filtered list is handed to apiClient.syncDailyStats. -/
def completedDayStats (store : List DailyActivitySummary) (today : SimpleDate) :
    List DailyActivitySummary :=
  (getDailyAggregatedActivities store 30).filter
    (fun stat => jsStringLt stat.date (isoDateStr (prevDay today)))

/-- C6: a daily aggregate is sent only if its date is strictly earlier
than yesterday's date relative to the cycle's run date; with today =
2025-06-10 an aggregate dated 2025-06-08 is selected and one dated
2025-06-09 is not. -/
theorem C6_completed_day_eligibility (store : List DailyActivitySummary)
    (today : SimpleDate) :
    (∀ stat ∈ completedDayStats store today,
      jsStringLt stat.date (isoDateStr (prevDay today)) = true) ∧
    completedDayStats
        [⟨"2025-06-08", "/p", 7, [], [], 1⟩, ⟨"2025-06-09", "/p", 9, [], [], 2⟩]
        ⟨2025, 6, 10⟩ =
      [⟨"2025-06-08", "/p", 7, [], [], 1⟩] := by
  constructor
  · intro stat hmem
    exact (List.mem_filter.mp hmem).2
  · decide

theorem C6_completed_day_eligibility_witness :
    jsStringLt "2025-06-08" (isoDateStr (prevDay ⟨2025, 6, 10⟩)) = true :=
  (C6_completed_day_eligibility
      [⟨"2025-06-08", "/p", 7, [], [], 1⟩, ⟨"2025-06-09", "/p", 9, [], [], 2⟩]
      ⟨2025, 6, 10⟩).1
    ⟨"2025-06-08", "/p", 7, [], [], 1⟩
    (by decide)

/-- Numeric value of a digit run (JS parseInt base 10 on the captured
group). -/
def digitsVal (ds : List Char) : Nat :=
  ds.foldl (fun a c => a * 10 + (c.toNat - 48)) 0

/-- The regex atom `(\d+)` at the current position: greedy digit run
and the remaining characters; none when the position does not start
with a digit. -/
def parseDigits (l : List Char) : Option (Nat × List Char) :=
  if (l.takeWhile Char.isDigit).isEmpty then none
  else some (digitsVal (l.takeWhile Char.isDigit), l.dropWhile Char.isDigit)

/-- Consume an exact literal; returns the remainder on success. -/
def dropLit : List Char → List Char → Option (List Char)
  | [], s => some s
  | _ :: _, [] => none
  | c :: cs, x :: xs => if c = x then dropLit cs xs else none

/-- Literal ` insertion` of the diff-stat regex. -/
def insertionLit : List Char := " insertion".data

/-- Literal ` deletion` of the diff-stat regex. -/
def deletionLit : List Char := " deletion".data

/-- The `.*?(\d+) deletion` tail of the diff-stat regex: lazily widen
the gap (which, as `.`, may not cross a newline) until `(\d+) deletion`
matches, capturing the number. -/
def matchDeletionFrom : List Char → Option Nat
  | [] => none
  | c :: rest =>
    match parseDigits (c :: rest) with
    | some (n, r) =>
      match dropLit deletionLit r with
      | some _ => some n
      | none => if c = '\n' then none else matchDeletionFrom rest
    | none => if c = '\n' then none else matchDeletionFrom rest

/-- The JS regex `/(\d+) insertion.*?(\d+) deletion/` applied to the
diff-stat output (gitTracker.ts line 127): leftmost start position
where `(\d+) insertion` matches and a deletion count follows on the
same line; captures the two numbers, none when no match exists. -/
def matchStats : List Char → Option (Nat × Nat)
  | [] => none
  | c :: rest =>
    match parseDigits (c :: rest) with
    | some (n1, r) =>
      match dropLit insertionLit r with
      | some r2 =>
        match matchDeletionFrom r2 with
        | some n2 => some (n1, n2)
        | none => matchStats rest
      | none => matchStats rest
    | none => matchStats rest

/-- The diff-stat parsing slice of GitTracker.getCommitDetails
(gitTracker.ts lines 122-131): filesChanged counts the newline
characters of the output; linesAdded/linesDeleted come from the single
combined regex match, and both stay zero when it fails. -/
def parseDiffStats (diffStats : String) : Nat × Nat × Nat :=
  let filesChanged := (diffStats.data.filter (fun c => c = '\n')).length
  match matchStats diffStats.data with
  | some (a, d) => (filesChanged, a, d)
  | none => (filesChanged, 0, 0)

/-- Substring occurrence test on character lists. -/
def containsSub (pat : List Char) : List Char → Bool
  | [] => pat.isEmpty
  | c :: rest => pat.isPrefixOf (c :: rest) || containsSub pat rest

/-- A successful literal consumption means the input is the literal
followed by the remainder. -/
theorem dropLit_eq_append (pat : List Char) :
    ∀ s r : List Char, dropLit pat s = some r → s = pat ++ r := by
  induction pat with
  | nil =>
    intro s r h
    simp only [dropLit, Option.some.injEq] at h
    rw [h]
    rfl
  | cons c cs ih =>
    intro s r h
    cases s with
    | nil => simp [dropLit] at h
    | cons x xs =>
      simp only [dropLit] at h
      by_cases hc : c = x
      · rw [if_pos hc] at h
        rw [List.cons_append, ← hc, ih xs r h]
      · rw [if_neg hc] at h
        cases h

/-- A prefix occurrence is an occurrence. -/
theorem containsSub_of_append (pat tail : List Char) :
    containsSub pat (pat ++ tail) = true := by
  cases pat with
  | nil => cases tail <;> simp [containsSub, List.isPrefixOf]
  | cons c cs =>
    have hpre : (c :: cs).isPrefixOf ((c :: cs) ++ tail) = true := by
      induction cs generalizing c with
      | nil => simp [List.isPrefixOf]
      | cons d ds ih => simp [List.isPrefixOf, ih d]
    simp [containsSub, hpre]

/-- Occurrence is preserved when characters are prepended. -/
theorem containsSub_of_suffix (pat s t : List Char)
    (h : containsSub pat s = true) : containsSub pat (t ++ s) = true := by
  induction t with
  | nil => exact h
  | cons c cs ih => simp [containsSub, ih]

/-- parseDigits leaves a suffix of its input. -/
theorem parseDigits_suffix (l : List Char) (n : Nat) (r : List Char)
    (h : parseDigits l = some (n, r)) : ∃ t, l = t ++ r := by
  unfold parseDigits at h
  by_cases he : (l.takeWhile Char.isDigit).isEmpty = true
  · rw [if_pos he] at h
    cases h
  · rw [if_neg he] at h
    simp only [Option.some.injEq, Prod.mk.injEq] at h
    exact ⟨l.takeWhile Char.isDigit, by rw [← h.2, List.takeWhile_append_dropWhile]⟩

/-- A successful deletion-tail match implies the text contains the
literal ` deletion`. -/
theorem matchDeletionFrom_contains (l : List Char) (n : Nat)
    (h : matchDeletionFrom l = some n) : containsSub deletionLit l = true := by
  induction l with
  | nil => simp [matchDeletionFrom] at h
  | cons c rest ih =>
    rw [matchDeletionFrom] at h
    split at h
    · rename_i n0 r hpd
      split at h
      · rename_i r2 hdl
        obtain ⟨t1, ht1⟩ := parseDigits_suffix (c :: rest) n0 r hpd
        have hr : r = deletionLit ++ r2 := dropLit_eq_append _ _ _ hdl
        rw [ht1, hr]
        exact containsSub_of_suffix _ _ _ (containsSub_of_append _ _)
      · split at h
        · cases h
        · have := ih h
          simp [containsSub, this]
    · split at h
      · cases h
      · have := ih h
        simp [containsSub, this]

/-- A successful combined-regex match implies the text contains both
the ` insertion` and the ` deletion` literal. -/
theorem matchStats_contains (l : List Char) (p : Nat × Nat)
    (h : matchStats l = some p) :
    containsSub insertionLit l = true ∧ containsSub deletionLit l = true := by
  induction l with
  | nil => simp [matchStats] at h
  | cons c rest ih =>
    rw [matchStats] at h
    split at h
    · rename_i n1 r hpd
      split at h
      · rename_i r2 hdl
        split at h
        · rename_i n2 hdel
          obtain ⟨t1, ht1⟩ := parseDigits_suffix (c :: rest) n1 r hpd
          have hr : r = insertionLit ++ r2 := dropLit_eq_append _ _ _ hdl
          constructor
          · rw [ht1, hr]
            exact containsSub_of_suffix _ _ _ (containsSub_of_append _ _)
          · have hd2 : containsSub deletionLit r2 = true :=
              matchDeletionFrom_contains r2 n2 hdel
            rw [ht1, hr]
            exact containsSub_of_suffix _ _ _
              (containsSub_of_suffix _ _ _ hd2)
        · have := ih h
          exact ⟨by simp [containsSub, this.1], by simp [containsSub, this.2]⟩
      · have := ih h
        exact ⟨by simp [containsSub, this.1], by simp [containsSub, this.2]⟩
    · have := ih h
      exact ⟨by simp [containsSub, this.1], by simp [containsSub, this.2]⟩

/-- C7: when the diff-stat output lacks an insertions phrase or lacks a
deletions phrase (no combined "N insertion(s), M deletion(s)" text),
the single-combined-phrase regex fails and both linesAdded and
linesDeleted degrade to zero. -/
theorem C7_single_phrase_degrades (s : String)
    (h : containsSub insertionLit s.data = false ∨
      containsSub deletionLit s.data = false) :
    (parseDiffStats s).2.1 = 0 ∧ (parseDiffStats s).2.2 = 0 := by
  have hnone : matchStats s.data = none := by
    cases hms : matchStats s.data with
    | none => rfl
    | some p =>
      have hc := matchStats_contains s.data p hms
      rcases h with h | h
      · rw [hc.1] at h
        cases h
      · rw [hc.2] at h
        cases h
  unfold parseDiffStats
  rw [hnone]
  exact ⟨rfl, rfl⟩

theorem C7_single_phrase_degrades_witness :
    (parseDiffStats "3 insertions(+)").2.1 = 0 ∧
      (parseDiffStats "3 insertions(+)").2.2 = 0 :=
  C7_single_phrase_degrades "3 insertions(+)" (Or.inr (by decide))
